import Mathlib

/-!
Verification of the comment-marker extraction engine of the `clawde` repository
(`comment.go`) against its natural-language specification.

The Go code is shallowly embedded: Go `string` values become Lean `String`
values, and the Go standard-library string operations used by `comment.go`
(`strings.Contains`, `strings.Split`, `strings.Join`, `strings.TrimSpace`,
`strings.ToLower`, `strings.HasPrefix`/`HasSuffix`, `strings.ReplaceAll`,
`filepath.Ext`) are re-implemented below on `String.data` (`List Char`).
Go strings are byte sequences and Go's slicing/length are byte-based, while
Lean strings are `Char` lists; on ASCII input (all markers, comment tokens and
every input appearing in the theorems below are ASCII) the two coincide, and
Go's Unicode-aware `ToLower`/`TrimSpace` agree with the ASCII versions used
here. Loops with non-structural index jumps are embedded with an explicit
fuel argument that is always instantiated with the exact iteration bound of
the corresponding Go loop, so the Lean functions compute exactly the Go loop.
-/

/-- ASCII case mapping used by `strings.ToLower` on ASCII input. -/
def charLowerGo (c : Char) : Char :=
  if 'A' ≤ c ∧ c ≤ 'Z' then Char.ofNat (c.toNat + 32) else c

/-- `strings.ToLower` (ASCII fragment). -/
def goLower (s : String) : String :=
  String.mk (s.data.map charLowerGo)

/-- The ASCII white-space characters recognised by Go's `unicode.IsSpace`. -/
def isGoSpace (c : Char) : Bool :=
  c == ' ' || c == '\t' || c == '\n' || c == '\x0b' || c == '\x0c' || c == '\r'

/-- Trim at the list level: drop leading and trailing white space. -/
def trimListGo (l : List Char) : List Char :=
  ((l.dropWhile isGoSpace).reverse.dropWhile isGoSpace).reverse

/-- `strings.TrimSpace` (ASCII fragment). -/
def goTrimSpace (s : String) : String :=
  String.mk (trimListGo s.data)

/-- First occurrence of `sep` in a character list: returns
`some (before, after)` where the list is `before ++ sep ++ after` and
`before` does not contain `sep` ending at or before its end.  This is the
primitive underlying Go's `strings.Contains`, `strings.Split(s, sep)[0]` and
`strings.Join(strings.Split(s, sep)[1:], sep)` for nonempty `sep`. -/
def goFirstSplit (l sep : List Char) : Option (List Char × List Char) :=
  match l with
  | [] => none
  | c :: rest =>
    if sep.isPrefixOf (c :: rest) then some ([], (c :: rest).drop sep.length)
    else (goFirstSplit rest sep).map (fun p => (c :: p.1, p.2))

/-- `strings.Contains s sub` for nonempty `sub` (every use below has a
nonempty second argument). -/
def goContains (s sub : String) : Bool :=
  (goFirstSplit s.data sub.data).isSome

/-- `strings.HasPrefix`. -/
def goStartsWith (s pre : String) : Bool :=
  pre.data.isPrefixOf s.data

/-- `strings.HasSuffix`. -/
def goEndsWith (s suf : String) : Bool :=
  suf.data.isSuffixOf s.data

/-- `strings.Split(s, tok)[0]`: the text before the first occurrence of
`tok`, or all of `s` when `tok` does not occur (then `Split` returns `[s]`). -/
def beforeTok (s tok : String) : String :=
  match goFirstSplit s.data tok.data with
  | some p => String.mk p.1
  | none => s

/-- `strings.Join(strings.Split(s, tok)[1:], tok)`: the text after the first
occurrence of `tok` (joining the later parts with `tok` restores the later
occurrences verbatim), or `""` when `tok` does not occur (then the Go
callers guard on `len(parts) >= 2`, i.e. on `strings.Contains`). -/
def afterTok (s tok : String) : String :=
  match goFirstSplit s.data tok.data with
  | some p => String.mk p.2
  | none => ""

/-- `strings.Join` (Go builds the result left to right). -/
def goJoin (sep : String) : List String → String
  | [] => ""
  | x :: xs => xs.foldl (fun acc y => acc ++ sep ++ y) x

/-- Fuel-based worker for `strings.Split`.  Each step consumes at least one
character, so fuel `l.length` (the initial call) is never exhausted. -/
def splitOnAux (sep : List Char) : Nat → List Char → List Char → List (List Char)
  | _, [], acc => [acc.reverse]
  | 0, l, acc => [acc.reverse ++ l]
  | fuel+1, c :: rest, acc =>
    if sep.isPrefixOf (c :: rest) then
      acc.reverse :: splitOnAux sep fuel ((c :: rest).drop sep.length) []
    else
      splitOnAux sep fuel rest (c :: acc)

/-- `strings.Split s sep` for nonempty `sep`. -/
def goSplitOn (s sep : String) : List String :=
  (splitOnAux sep.data s.data.length s.data []).map String.mk

/-- Fuel-based worker for `strings.ReplaceAll` (leftmost, non-overlapping).
Each step consumes at least one character, so fuel `l.length` suffices. -/
def replAux (old new : List Char) : Nat → List Char → List Char
  | _, [] => []
  | 0, l => l
  | fuel+1, c :: rest =>
    if old.isPrefixOf (c :: rest) then
      new ++ replAux old new fuel ((c :: rest).drop old.length)
    else
      c :: replAux old new fuel rest

/-- `strings.ReplaceAll s old new` for nonempty `old`. -/
def goReplaceAll (s old new : String) : String :=
  String.mk (replAux old.data new.data s.data.length s.data)

/-- `strings.TrimPrefix s pre` (used in `comment.go` only with `pre = "*"`). -/
def goTrimOnePre (s pre : String) : String :=
  if goStartsWith s pre then String.mk (s.data.drop pre.data.length) else s

/-- `filepath.Ext`: the suffix of the final slash-separated path element
beginning at its final dot, or `""` when that element has no dot. -/
def filepathExt (p : String) : String :=
  let base := (goSplitOn p "/").getLastD ""
  let parts := goSplitOn base "."
  if parts.length ≥ 2 then "." ++ parts.getLastD "" else ""

/-- `s :: s+1 :: ... :: s+n-1 :: []` — explicit index list for loops. -/
def idxList (s : Nat) : Nat → List Nat
  | 0 => []
  | n+1 => s :: idxList (s+1) n

/-! ### SHA-256 (`crypto/sha256`), on byte lists

`generateCommentHash` hex-encodes the first 8 bytes of the SHA-256 digest of
its input string (UTF-8 bytes).  The implementation below works on `Nat`
bytes/words with explicit reduction mod `2 ^ 32`. -/

/-- UTF-8 encoding of a single character, as `Nat` bytes. -/
def utf8CharBytes (c : Char) : List Nat :=
  let n := c.toNat
  if n < 0x80 then [n]
  else if n < 0x800 then [0xc0 + n / 64, 0x80 + n % 64]
  else if n < 0x10000 then [0xe0 + n / 4096, 0x80 + (n / 64) % 64, 0x80 + n % 64]
  else [0xf0 + n / 262144, 0x80 + (n / 4096) % 64, 0x80 + (n / 64) % 64, 0x80 + n % 64]

/-- UTF-8 bytes of a string (Go strings are exactly these bytes). -/
def utf8Bytes (s : String) : List Nat :=
  s.data.foldr (fun c acc => utf8CharBytes c ++ acc) []

def mod32 : Nat := 4294967296

def rotr32 (x n : Nat) : Nat :=
  (x / 2 ^ n + (x % 2 ^ n) * 2 ^ (32 - n)) % mod32

def shr32 (x n : Nat) : Nat := x / 2 ^ n

def smallSigma0 (x : Nat) : Nat := rotr32 x 7 ^^^ rotr32 x 18 ^^^ shr32 x 3
def smallSigma1 (x : Nat) : Nat := rotr32 x 17 ^^^ rotr32 x 19 ^^^ shr32 x 10
def bigSigma0 (x : Nat) : Nat := rotr32 x 2 ^^^ rotr32 x 13 ^^^ rotr32 x 22
def bigSigma1 (x : Nat) : Nat := rotr32 x 6 ^^^ rotr32 x 11 ^^^ rotr32 x 25
def chFn (x y z : Nat) : Nat := (x &&& y) ^^^ ((x ^^^ 4294967295) &&& z)
def majFn (x y z : Nat) : Nat := (x &&& y) ^^^ (x &&& z) ^^^ (y &&& z)

def sha256K : List Nat :=
  [1116352408, 1899447441, 3049323471, 3921009573, 961987163, 1508970993,
   2453635748, 2870763221, 3624381080, 310598401, 607225278, 1426881987,
   1925078388, 2162078206, 2614888103, 3248222580, 3835390401, 4022224774,
   264347078, 604807628, 770255983, 1249150122, 1555081692, 1996064986,
   2554220882, 2821834349, 2952996808, 3210313671, 3336571891, 3584528711,
   113926993, 338241895, 666307205, 773529912, 1294757372, 1396182291,
   1695183700, 1986661051, 2177026350, 2456956037, 2730485921, 2820302411,
   3259730800, 3345764771, 3516065817, 3600352804, 4094571909, 275423344,
   430227734, 506948616, 659060556, 883997877, 958139571, 1322822218,
   1537002063, 1747873779, 1955562222, 2024104815, 2227730452, 2361852424,
   2428436474, 2756734187, 3204031479, 3329325298]

def sha256H0 : List Nat :=
  [1779033703, 3144134277, 1013904242, 2773480762,
   1359893119, 2600822924, 528734635, 1541459225]

/-- Big-endian byte representation of `v` in `n` bytes. -/
def beBytes : Nat → Nat → List Nat
  | 0, _ => []
  | n+1, v => beBytes n (v / 256) ++ [v % 256]

/-- SHA-256 message padding: append `0x80`, zeros and the 64-bit big-endian
bit length, reaching a multiple of 64 bytes. -/
def sha256pad (msg : List Nat) : List Nat :=
  let len := msg.length
  let padZeros := (120 - ((len + 1) % 64)) % 64
  msg ++ [0x80] ++ List.replicate padZeros 0 ++ beBytes 8 (len * 8)

/-- Group bytes into big-endian 32-bit words. -/
def bytesToWords : List Nat → List Nat
  | b0 :: b1 :: b2 :: b3 :: rest => (((b0 * 256 + b1) * 256 + b2) * 256 + b3) :: bytesToWords rest
  | _ => []

/-- Extend the 16 block words to the 64-entry message schedule. -/
def sha256sched (w16 : List Nat) : List Nat :=
  (idxList 16 48).foldl
    (fun w i =>
      w ++ [(smallSigma1 (w.getD (i - 2) 0) + w.getD (i - 7) 0 +
             smallSigma0 (w.getD (i - 15) 0) + w.getD (i - 16) 0) % mod32])
    w16

/-- One SHA-256 compression round over the running state `[a,b,c,d,e,f,g,h]`. -/
def sha256round (w : List Nat) (s : List Nat) (i : Nat) : List Nat :=
  match s with
  | [a, b, c, d, e, f, g, h] =>
    let t1 := (h + bigSigma1 e + chFn e f g + sha256K.getD i 0 + w.getD i 0) % mod32
    let t2 := (bigSigma0 a + majFn a b c) % mod32
    [(t1 + t2) % mod32, a, b, c, (d + t1) % mod32, e, f, g]
  | s => s

/-- Compress one 64-byte chunk into the running hash value. -/
def sha256compress (h : List Nat) (chunk : List Nat) : List Nat :=
  let w := sha256sched (bytesToWords chunk)
  let f := (idxList 0 64).foldl (sha256round w) h
  (h.zip f).map (fun p => (p.1 + p.2) % mod32)

/-- Split into 64-byte chunks (fuel `l.length` suffices). -/
def chunks64 : Nat → List Nat → List (List Nat)
  | 0, _ => []
  | _+1, [] => []
  | fuel+1, l => l.take 64 :: chunks64 fuel (l.drop 64)

/-- SHA-256 digest (32 bytes) of a byte list. -/
def sha256 (msg : List Nat) : List Nat :=
  let padded := sha256pad msg
  let hs := (chunks64 padded.length padded).foldl sha256compress sha256H0
  (hs.map (beBytes 4)).flatten

def hexDigit (n : Nat) : Char := "0123456789abcdef".data.getD n '0'

/-- `fmt.Sprintf("%x", bytes)`: two lowercase hex digits per byte. -/
def hexOfBytes (bs : List Nat) : String :=
  String.mk (bs.flatMap (fun b => [hexDigit (b / 16), hexDigit (b % 16)]))

/-! ### Data model (`comment.go`) -/

/-- `MultilineTokenPair`: the literal start/end tokens of a multiline comment
dialect.  The corresponding `MultilineCommentPair` regexes in `comment.go`
(`/\*`, `\*/`, `"""`, `'''`) are literal-escaped, so `Start.MatchString line`
is `strings.Contains line Start`, `FindStringIndex` is the first occurrence
and `FindAllStringIndex` the leftmost non-overlapping occurrences of the
literal token; the embedding therefore carries the tokens only. -/
structure MultilineTokenPair where
  Start : String
  End : String
deriving Repr, DecidableEq

/-- `CommentPattern`: per-extension comment dialect.  `SingleLine` holds the
regex source strings; `extractSingleLineComments` never uses its pattern
argument, so only the length of this list (the number of single-line passes)
is observable. -/
structure CommentPattern where
  SingleLine : List String
  Multiline : List MultilineTokenPair
  SingleLineTokens : List String
  MultilineTokens : List MultilineTokenPair
deriving Repr

/-- The `commentPatterns` map literal of `comment.go`. -/
def commentPatterns (ext : String) : Option CommentPattern :=
  if ext = ".go" then
    some { SingleLine := ["(?i)^\\s*//\\s*(.*AI[?!:].*)"],
           Multiline := [⟨"/*", "*/"⟩],
           SingleLineTokens := ["//"],
           MultilineTokens := [⟨"/*", "*/"⟩] }
  else if ext = ".js" then
    some { SingleLine := ["(?i)^\\s*//\\s*(.*AI[?!:].*)"],
           Multiline := [⟨"/*", "*/"⟩],
           SingleLineTokens := ["//"],
           MultilineTokens := [⟨"/*", "*/"⟩] }
  else if ext = ".py" then
    some { SingleLine := ["(?i)^\\s*#\\s*(.*AI[?!:].*)"],
           Multiline := [⟨"\"\"\"", "\"\"\""⟩, ⟨"'''", "'''"⟩],
           SingleLineTokens := ["#"],
           MultilineTokens := [⟨"\"\"\"", "\"\"\""⟩, ⟨"'''", "'''"⟩] }
  else none

/-- `AIComment`: one detected AI comment record. -/
structure AIComment where
  FilePath : String
  LineNumber : Nat
  EndLine : Nat
  Content : String
  FullLine : String
  ContextLines : List String
  ActionType : String
  Hash : String
deriving Repr, DecidableEq

/-- `maxCommentLength`. -/
def maxCommentLength : Nat := 1000

/-- `truncateComment`: truncate content over the cap, appending the marker
(Go `len`/slicing are byte-based; ASCII, so `Char` counts agree). -/
def truncateComment (content : String) : String :=
  if content.data.length ≤ maxCommentLength then content
  else String.mk (content.data.take maxCommentLength) ++ "...(truncated)"

/-- `generateCommentHash`: hex of the first 8 bytes of the SHA-256 digest of
`fmt.Sprintf("%s:%d:%s:%s", FilePath, LineNumber, Content, ActionType)`. -/
def generateCommentHash (comment : AIComment) : String :=
  let data := comment.FilePath ++ ":" ++ toString comment.LineNumber ++ ":" ++
              comment.Content ++ ":" ++ comment.ActionType
  hexOfBytes ((sha256 (utf8Bytes data)).take 8)

/-- The marker classification applied by `extractSingleLineComments` to a
(combined) comment content.  This `if` chain appears verbatim twice in
`comment.go` (whole-line blocks, and inline comments); `none` is
the `continue` branch (no marker at a valid position, record discarded). -/
def classifyCombined (content : String) : Option String :=
  let lowerContent := goLower content
  if goEndsWith lowerContent " ai!" || lowerContent == "ai!" || goStartsWith lowerContent "ai!" then
    some "!"
  else if goEndsWith lowerContent " ai?" || lowerContent == "ai?" || goStartsWith lowerContent "ai?" then
    some "?"
  else if goStartsWith lowerContent "ai:" then
    some ":"
  else
    none

/-- The comment token `extractSingleLineComments` derives from the file
extension (`".py"` gives `"#"`; `".go"`, `".js"` and the default give `"//"`). -/
def commentPrefixFor (filePath : String) : String :=
  if filepathExt filePath == ".py" then "#" else "//"

/-- `extractContextLines`: a window of `contextSize` lines before/after the
target line, each rendered with its 1-indexed number, the target marked. -/
def extractContextLines (lines : List String) (targetLine contextSize : Nat) : List String :=
  let start := targetLine - contextSize
  let stop := min (targetLine + contextSize + 1) lines.length
  (idxList start (stop - start)).map fun i =>
    (if i == targetLine then "> " else "  ") ++ toString (i + 1) ++ ": " ++ lines.getD i ""

/-! ### Single-line extractor (`extractSingleLineComments`) -/

/-- The inner grouping loop of `extractSingleLineComments`
(`for j := i+1; j < len(lines); j++`): starting at index `j` with running
end line `e`, collect subsequent whole-line comments of token `tok`,
returning the collected lines, the final end line, and the indices consumed
(marked in `processedLines`).  Fuel is always called with the exact
remaining iteration count `lines.length - j`. -/
def collectGroup (tok : String) (lines : List String) : Nat → Nat → Nat → List String × Nat × List Nat
  | 0, _, e => ([], e, [])
  | fuel+1, j, e =>
    let line := lines.getD j ""
    if goContains line tok then
      if goTrimSpace (beforeTok line tok) == "" then
        match collectGroup tok lines fuel (j+1) j with
        | (ls, e', ps) => (line :: ls, e', j :: ps)
      else ([], e, [])
    else ([], e, [])

/-- The outer loop of `extractSingleLineComments` over line indices `i`,
carrying the `processedLines` set.  Fuel is always called with the exact
remaining iteration count (`lines.length` initially), so each executed body
has `i < lines.length` and `lines.getD i ""` is the Go `line`. -/
def slLoop (filePath tok : String) (lines : List String) : Nat → Nat → List Nat → List AIComment
  | 0, _, _ => []
  | fuel+1, i, processed =>
    let line := lines.getD i ""
    if processed.contains i then
      -- Skip lines already processed as part of a comment block
      slLoop filePath tok lines fuel (i+1) processed
    else if !(goContains line tok) then
      -- Line contains no comment at all
      slLoop filePath tok lines fuel (i+1) processed
    else if goTrimSpace (beforeTok line tok) == "" then
      -- Whole-line comment: group consecutive whole-line comments
      match collectGroup tok lines (lines.length - (i+1)) (i+1) i with
      | (extraLines, endLine, newMarks) =>
        let commentLines := line :: extraLines
        let processedNext := processed ++ newMarks
        -- Extract all comment content and combine
        let allContent := commentLines.filterMap fun commentLine =>
          if goContains commentLine tok then
            let content := goTrimSpace (afterTok commentLine tok)
            if content != "" then some content else none
          else none
        let combinedContent := truncateComment (goJoin " " allContent)
        match classifyCombined combinedContent with
        | none => slLoop filePath tok lines fuel (i+1) processedNext
        | some actionType =>
          let base : AIComment :=
            { FilePath := filePath
              LineNumber := i + 1
              -- For single-line blocks, EndLine is reset to 0
              EndLine := if commentLines.length == 1 then 0 else endLine + 1
              Content := combinedContent
              FullLine := goJoin "\n" commentLines
              ContextLines := extractContextLines lines i 5
              ActionType := actionType
              Hash := "" }
          { base with Hash := generateCommentHash base } ::
            slLoop filePath tok lines fuel (i+1) processedNext
    else
      -- Inline comment: handled individually, never grouped
      -- (the Go re-check `len(parts) >= 2` holds because the line contains `tok`)
      let commentContent := truncateComment (goTrimSpace (afterTok line tok))
      match classifyCombined commentContent with
      | none => slLoop filePath tok lines fuel (i+1) processed
      | some actionType =>
        let base : AIComment :=
          { FilePath := filePath
            LineNumber := i + 1
            EndLine := 0
            Content := commentContent
            FullLine := line
            ContextLines := extractContextLines lines i 5
            ActionType := actionType
            Hash := "" }
        { base with Hash := generateCommentHash base } ::
          slLoop filePath tok lines fuel (i+1) processed

/-- `extractSingleLineComments(filePath, lines, pattern)`.  The Go function
receives the compiled single-line regex but never uses it (the `_pat`
argument below); the comment token is derived from the file extension. -/
def extractSingleLineComments (filePath : String) (lines : List String) (_pat : String) : List AIComment :=
  slLoop filePath (commentPrefixFor filePath) lines lines.length 0 []

/-! ### Multi-line extractor (`extractMultilineComments`) -/

/-- `hasContentBetweenMarkers`: non-whitespace content strictly between the
start and end tokens on one line (between the first and last occurrence for
symmetric tokens).  `allOccsAux` lists the leftmost non-overlapping
occurrence indices (as `regexp.FindAllStringIndex` does for the
literal-escaped patterns); fuel `l.length` suffices. -/
def allOccsAux (sep : List Char) : Nat → List Char → Nat → List Nat
  | _, [], _ => []
  | 0, _, _ => []
  | fuel+1, c :: rest, pos =>
    if sep.isPrefixOf (c :: rest) then
      pos :: allOccsAux sep fuel ((c :: rest).drop sep.length) (pos + sep.length)
    else
      allOccsAux sep fuel rest (pos + 1)

/-- Indices of the leftmost non-overlapping occurrences of `sep` in `s`. -/
def allOccs (s sep : String) : List Nat :=
  allOccsAux sep.data s.data.length s.data 0

/-- Index of the first occurrence of `sep` (`regexp.FindStringIndex` start
position for a literal pattern). -/
def firstOccIdx (sep : List Char) : List Char → Option Nat
  | [] => none
  | c :: rest =>
    if sep.isPrefixOf (c :: rest) then some 0
    else (firstOccIdx sep rest).map (· + 1)

def hasContentBetweenMarkers (line : String) (pair : MultilineTokenPair) : Bool :=
  if pair.Start == pair.End then
    let ms := allOccs line pair.Start
    if ms.length ≥ 2 then
      let a := ms.headD 0 + pair.Start.data.length
      let b := ms.getLastD 0
      goTrimSpace (String.mk ((line.data.drop a).take (b - a))) != ""
    else false
  else
    match firstOccIdx pair.Start.data line.data, firstOccIdx pair.End.data line.data with
    | some s, some e =>
      if s + pair.Start.data.length ≤ e then
        goTrimSpace (String.mk ((line.data.drop (s + pair.Start.data.length)).take
          (e - (s + pair.Start.data.length)))) != ""
      else false
    | _, _ => false

/-- `extractMultilineContentLines`: strip the extension's multiline tokens,
split into lines, strip a leading `*` continuation marker and whitespace,
and drop empty lines.  (For `ext = ""` the Go fallback iterates the whole
`commentPatterns` map in unspecified order; that branch is called nowhere
with the extensions used here and is fixed to the `.go`, `.js`, `.py` token
order below.) -/
def extractMultilineContentLines (fullComment ext : String) : List String :=
  let content :=
    if ext != "" then
      match commentPatterns ext with
      | some patterns =>
        patterns.MultilineTokens.foldl
          (fun c p => goReplaceAll (goReplaceAll c p.Start "") p.End "") fullComment
      | none => fullComment
    else
      [MultilineTokenPair.mk "/*" "*/", ⟨"\"\"\"", "\"\"\""⟩, ⟨"'''", "'''"⟩].foldl
        (fun c p => goReplaceAll (goReplaceAll c p.Start "") p.End "") fullComment
  (goSplitOn content "\n").filterMap fun line =>
    let cleaned := goTrimSpace (goTrimOnePre (goTrimSpace line) "*")
    if cleaned != "" then some cleaned else none

/-- `extractMultilineContentForExt`: the cleaned lines joined with spaces. -/
def extractMultilineContentForExt (fullComment ext : String) : String :=
  goJoin " " (extractMultilineContentLines fullComment ext)

/-- `hasValidAIMarker`: some cleaned line carries a marker at a valid
position (`AI?`/`AI!` at the end, or `AI:`/`AI?`/`AI!` at the start),
case-insensitively.  The Go loop returns on the first such line. -/
def hasValidAIMarker (fullComment ext : String) : Bool :=
  (extractMultilineContentLines fullComment ext).any fun line =>
    if line == "" then false
    else
      let lowerLine := goLower line
      (goEndsWith lowerLine " ai?" || lowerLine == "ai?" ||
       goEndsWith lowerLine " ai!" || lowerLine == "ai!") ||
      goStartsWith lowerLine "ai:" ||
      (goStartsWith lowerLine "ai?" || goStartsWith lowerLine "ai!")

/-- `determineActionType`: block-level resolution with priority
`AI! > AI? > AI:`.  The Go loop accumulates three independent Boolean flags,
each of which is the disjunction of its per-line check over all lines; the
final `none` models the `log.Fatalf` abort branch ("this should never happen
if hasValidAIMarker returned true"). -/
def determineActionType (fullComment ext : String) : Option String :=
  let lines := extractMultilineContentLines fullComment ext
  let hasCommand := lines.any fun line =>
    line != "" && (let lowerLine := goLower line;
      goEndsWith lowerLine " ai!" || lowerLine == "ai!" || goStartsWith lowerLine "ai!")
  let hasQuestion := lines.any fun line =>
    line != "" && (let lowerLine := goLower line;
      goEndsWith lowerLine " ai?" || lowerLine == "ai?" || goStartsWith lowerLine "ai?")
  let hasContext := lines.any fun line =>
    line != "" && (let lowerLine := goLower line; goStartsWith lowerLine "ai:")
  if hasCommand then some "!"
  else if hasQuestion then some "?"
  else if hasContext then some ":"
  else none

/-- The scanning loop of `extractMultilineComments`, structurally recursing
over the remaining lines with the running index `i` and the
`inComment`/`commentLines`/`startLine` state.  `ActionType` uses `.getD ""`
on `determineActionType`, which is only reached with `hasValidAIMarker`
true, where `determineActionType` is never `none` (proved below). -/
def mlLoop (filePath ext : String) (pair : MultilineTokenPair) (allLines : List String) :
    List String → Nat → Bool → List String → Nat → List AIComment
  | [], _, _, _, _ => []
  | line :: rest, i, inComment, commentLines, startLine =>
    if !inComment && goContains line pair.Start then
      if goContains line pair.End && hasContentBetweenMarkers line pair then
        -- Complete single-line multiline comment: process immediately
        let fullComment := goJoin "\n" [line]
        (if hasValidAIMarker fullComment ext then
          let base : AIComment :=
            { FilePath := filePath
              LineNumber := i + 1
              EndLine := i + 1
              Content := truncateComment (extractMultilineContentForExt fullComment ext)
              FullLine := fullComment
              ContextLines := extractContextLines allLines i 5
              ActionType := (determineActionType fullComment ext).getD ""
              Hash := "" }
          [{ base with Hash := generateCommentHash base }]
        else []) ++ mlLoop filePath ext pair allLines rest (i+1) false [] 0
      else
        mlLoop filePath ext pair allLines rest (i+1) true [line] i
    else if inComment then
      let commentLinesNext := commentLines ++ [line]
      if goContains line pair.End then
        let fullComment := goJoin "\n" commentLinesNext
        (if hasValidAIMarker fullComment ext then
          let base : AIComment :=
            { FilePath := filePath
              LineNumber := startLine + 1
              EndLine := i + 1
              Content := truncateComment (extractMultilineContentForExt fullComment ext)
              FullLine := fullComment
              ContextLines := extractContextLines allLines startLine 5
              ActionType := (determineActionType fullComment ext).getD ""
              Hash := "" }
          [{ base with Hash := generateCommentHash base }]
        else []) ++ mlLoop filePath ext pair allLines rest (i+1) false [] 0
      else
        mlLoop filePath ext pair allLines rest (i+1) true commentLinesNext startLine
    else
      mlLoop filePath ext pair allLines rest (i+1) false commentLines startLine

/-- `extractMultilineComments(filePath, lines, pair)`. -/
def extractMultilineComments (filePath : String) (lines : List String) (pair : MultilineTokenPair) : List AIComment :=
  mlLoop filePath (filepathExt filePath) pair lines lines 0 false [] 0

/-! ### `ExtractAIComments` -/

/-- `ExtractAIComments(filePath)`, with the `os.ReadFile` step externalised:
the file's content is passed in (the `error` side of the Go return is used
only for read failures, which cannot occur here; an unregistered extension
returns the empty success result `.ok []`, not an error). -/
def ExtractAIComments (filePath content : String) : Except String (List AIComment) :=
  match commentPatterns (filepathExt filePath) with
  | none => .ok []
  | some patterns =>
    let lines := goSplitOn content "\n"
    let single := (patterns.SingleLine.map fun pat =>
      extractSingleLineComments filePath lines pat).flatten
    let multi := (patterns.Multiline.map fun pair =>
      extractMultilineComments filePath lines pair).flatten
    .ok (single ++ multi)

/-! ### Opt-out scanner (spec §4.5)

The repository's test suite (`TestOptOutFunctionality`) exercises a
file-wide `NO_CLAWDE` opt-out through `ExtractAIComments`, but the scanner
itself is not part of the source tree provided under `src/`; it is modelled
here from the specification. -/

/-- Modelled from the spec: the opt-out scanner of §4.5 is missing from
`src/` (only its tests exist there).  "Before running extraction on a file's
content, scan every comment (both single-line tokens and multi-line blocks,
using the same tokenization as §4.3/§4.4) for a case-insensitive file-level
sentinel string" (`NO_CLAWDE`).  `optOutBlockScan` accumulates multi-line
blocks from a start token to the next end token and checks each block line. -/
def optOutBlockScan (pair : MultilineTokenPair) : List String → Bool → Bool
  | [], _ => false
  | line :: rest, inBlock =>
    if inBlock then
      goContains (goLower line) "no_clawde" ||
        optOutBlockScan pair rest (!(goContains line pair.End))
    else if goContains line pair.Start then
      goContains (goLower line) "no_clawde" ||
        optOutBlockScan pair rest (!(goContains line pair.End))
    else
      optOutBlockScan pair rest false

/-- Modelled from the spec: `true` iff some comment of the file (single-line
of a registered token, or inside a multi-line block of a registered token
pair) contains the sentinel `NO_CLAWDE` case-insensitively. -/
def containsOptOut (ext content : String) : Bool :=
  match commentPatterns ext with
  | none => false
  | some patterns =>
    let lines := goSplitOn content "\n"
    patterns.SingleLineTokens.any (fun tok =>
      lines.any fun line =>
        goContains line tok && goContains (goLower (afterTok line tok)) "no_clawde") ||
    patterns.MultilineTokens.any (fun pair => optOutBlockScan pair lines false)

/-- Modelled from the spec: `ExtractAIComments` with the §4.5 opt-out gate —
"If found anywhere, in any comment, extraction for that file returns an
empty result immediately". -/
def ExtractAICommentsWithOptOut (filePath content : String) : Except String (List AIComment) :=
  if containsOptOut (filepathExt filePath) content then .ok []
  else ExtractAIComments filePath content

/-- Unwrap the record list of an extraction result (empty on error). -/
def recordsOf : Except String (List AIComment) → List AIComment
  | .ok l => l
  | .error _ => []

/-- A stripped single-line comment content of 1001 characters carrying a
valid trailing Command marker. -/
def longMarkerContent : String := String.mk (List.replicate 997 'x') ++ " AI!"

/-! ### Helper lemmas about the string primitives -/

/-- `goFirstSplit` finds an occurrence whenever `sep` occurs as an infix. -/
theorem goFirstSplit_isSome_of_mid {l sep : List Char} (h : sep <:+: l) (hne : sep ≠ []) :
    (goFirstSplit l sep).isSome = true := by
  induction l with
  | nil => rw [List.infix_nil] at h; exact absurd h hne
  | cons c rest ih =>
    rw [List.infix_cons_iff] at h
    unfold goFirstSplit
    by_cases hp : sep.isPrefixOf (c :: rest)
    · simp [hp]
    · rcases h with hpre | hinf
      · rw [← List.isPrefixOf_iff_prefix] at hpre
        exact absurd hpre (by simp [hp])
      · simp only [hp, Bool.false_eq_true, if_false, Option.isSome_map']
        exact ih hinf

/-- A string whose data contains `sub.data` as an infix `goContains` it. -/
theorem goContains_of_mid {s sub : String} (h : sub.data <:+: s.data)
    (hne : sub.data ≠ []) : goContains s sub = true :=
  goFirstSplit_isSome_of_mid h hne

/-- If `s` does not contain `sub`, it cannot end with a suffix `suf` of which
`sub.data` is itself a suffix. -/
theorem goEndsWith_eq_false_of_not_contains {s sub suf : String}
    (h : goContains s sub = false) (hsub : sub.data <:+ suf.data) (hne : sub.data ≠ []) :
    goEndsWith s suf = false := by
  cases hx : goEndsWith s suf
  · rfl
  · unfold goEndsWith at hx
    rw [List.isSuffixOf_iff_suffix] at hx
    rw [goContains_of_mid (hsub.trans hx).isInfix hne] at h
    exact absurd h (by simp)

/-- If `s` does not contain `sub`, then `s ≠ sub` (as a `BEq` check). -/
theorem beq_eq_false_of_not_contains {s sub : String}
    (h : goContains s sub = false) (hne : sub.data ≠ []) : (s == sub) = false := by
  cases hx : s == sub
  · rfl
  · have hxx : s = sub := by rwa [beq_iff_eq] at hx
    subst hxx
    rw [goContains_of_mid (List.infix_refl _) hne] at h
    exact absurd h (by simp)

/-- If `s` does not contain `sub`, it cannot start with `sub`. -/
theorem goStartsWith_eq_false_of_not_contains {s sub : String}
    (h : goContains s sub = false) (hne : sub.data ≠ []) : goStartsWith s sub = false := by
  cases hx : goStartsWith s sub
  · rfl
  · unfold goStartsWith at hx
    rw [List.isPrefixOf_iff_prefix] at hx
    rw [goContains_of_mid hx.isInfix hne] at h
    exact absurd h (by simp)

/-! ### C8 — fingerprint determinism and field-dependence -/

/-- C8: `generateCommentHash` depends only on `FilePath`, `LineNumber`
(start line), `Content` and `ActionType`: any two records agreeing on these
four fields — whatever their `EndLine`, `FullLine`, `ContextLines` or stored
`Hash` — receive the same fingerprint. -/
theorem claim_C8_hash_determinism (c1 c2 : AIComment)
    (hf : c1.FilePath = c2.FilePath) (hl : c1.LineNumber = c2.LineNumber)
    (hc : c1.Content = c2.Content) (ha : c1.ActionType = c2.ActionType) :
    generateCommentHash c1 = generateCommentHash c2 := by
  unfold generateCommentHash
  rw [hf, hl, hc, ha]

theorem claim_C8_witness :
    generateCommentHash
      { FilePath := "test.go", LineNumber := 5, EndLine := 0,
        Content := "Test comment", FullLine := "// Test comment",
        ContextLines := [], ActionType := "?", Hash := "" } =
    generateCommentHash
      { FilePath := "test.go", LineNumber := 5, EndLine := 7,
        Content := "Test comment", FullLine := "totally different raw text AI?",
        ContextLines := ["  4: foo", "> 5: bar"], ActionType := "?", Hash := "abcd" } :=
  claim_C8_hash_determinism _ _ rfl rfl rfl rfl

/-! ### C9 — unsupported extension yields an empty success result -/

/-- C9: a file path whose extension is not registered in `commentPatterns`
makes `ExtractAIComments` return the empty success result (not an error),
short-circuiting all extraction. -/
theorem claim_C9_unsupported_ext (filePath content : String)
    (h : commentPatterns (filepathExt filePath) = none) :
    ExtractAIComments filePath content = .ok [] := by
  unfold ExtractAIComments
  rw [h]

theorem claim_C9_witness :
    ExtractAIComments "test.txt" "// This is a comment AI?" = .ok [] :=
  claim_C9_unsupported_ext "test.txt" "// This is a comment AI?" rfl

/-! ### C2 — file-wide opt-out (spec-modelled scanner) -/

/-- C2: whenever the (spec-modelled) opt-out scanner finds the `NO_CLAWDE`
sentinel in any comment of a supported file — wherever in the file, and
however many valid markers the file contains — gated extraction returns
zero records. -/
theorem claim_C2_optout (filePath content : String)
    (h : containsOptOut (filepathExt filePath) content = true) :
    ExtractAICommentsWithOptOut filePath content = .ok [] := by
  simp [ExtractAICommentsWithOptOut, h]

theorem claim_C2_witness :
    ExtractAICommentsWithOptOut "test.go" "// fix this AI!\n\n// NO_CLAWDE - excluded" = .ok [] ∧
    (recordsOf (ExtractAIComments "test.go" "// fix this AI!\n\n// NO_CLAWDE - excluded")).length = 1 :=
  ⟨claim_C2_optout "test.go" "// fix this AI!\n\n// NO_CLAWDE - excluded" (by decide), by decide⟩

/-! ### C5 — colon marker valid only at the start -/

/-- C5: for a comment content carrying no `!`/`?` marker text at all, the
classifier yields `Context` exactly when the content starts with `ai:`
(case-insensitively); in particular a content merely ending in `ai:` yields
no record. -/
theorem claim_C5_colon_position (content : String)
    (h1 : goContains (goLower content) "ai!" = false)
    (h2 : goContains (goLower content) "ai?" = false) :
    (goStartsWith (goLower content) "ai:" = true → classifyCombined content = some ":") ∧
    (goStartsWith (goLower content) "ai:" = false → classifyCombined content = none) := by
  have e1 : goEndsWith (goLower content) " ai!" = false :=
    goEndsWith_eq_false_of_not_contains h1 ⟨[' '], rfl⟩ (by decide)
  have e2 : ((goLower content) == "ai!") = false :=
    beq_eq_false_of_not_contains h1 (by decide)
  have e3 : goStartsWith (goLower content) "ai!" = false :=
    goStartsWith_eq_false_of_not_contains h1 (by decide)
  have e4 : goEndsWith (goLower content) " ai?" = false :=
    goEndsWith_eq_false_of_not_contains h2 ⟨[' '], rfl⟩ (by decide)
  have e5 : ((goLower content) == "ai?") = false :=
    beq_eq_false_of_not_contains h2 (by decide)
  have e6 : goStartsWith (goLower content) "ai?" = false :=
    goStartsWith_eq_false_of_not_contains h2 (by decide)
  constructor <;> intro hx <;>
    simp [classifyCombined, e1, e2, e3, e4, e5, e6, hx]

theorem claim_C5_witness :
    classifyCombined "This comment ends with AI:" = none ∧
    classifyCombined "AI: check this logic" = some ":" :=
  ⟨(claim_C5_colon_position "This comment ends with AI:" (by decide) (by decide)).2 (by decide),
   (claim_C5_colon_position "AI: check this logic" (by decide) (by decide)).1 (by decide)⟩

/-! ### C10 — the `log.Fatalf` branch of `determineActionType` is unreachable -/

/-- `determineActionType` only ever produces the three markers or `none`. -/
theorem determineActionType_cases (fullComment ext : String) :
    determineActionType fullComment ext = some "!" ∨
    determineActionType fullComment ext = some "?" ∨
    determineActionType fullComment ext = some ":" ∨
    determineActionType fullComment ext = none := by
  cases hd : determineActionType fullComment ext with
  | none => exact .inr (.inr (.inr rfl))
  | some a =>
    simp only [determineActionType] at hd
    split at hd
    · injection hd with hh; subst hh; exact .inl rfl
    · split at hd
      · injection hd with hh; subst hh; exact .inr (.inl rfl)
      · split at hd
        · injection hd with hh; subst hh; exact .inr (.inr (.inl rfl))
        · cases hd

/-- When `determineActionType` falls through to the `log.Fatalf` branch,
no line of the cleaned comment carries a valid marker. -/
theorem hasValid_false_of_none (fullComment ext : String)
    (h : determineActionType fullComment ext = none) :
    hasValidAIMarker fullComment ext = false := by
  simp only [determineActionType] at h
  split at h
  · exact absurd h (by simp)
  · split at h
    · exact absurd h (by simp)
    · split at h
      · exact absurd h (by simp)
      · rename_i hC hQ hX
        rw [Bool.not_eq_true, List.any_eq_false] at hC hQ hX
        simp only [hasValidAIMarker]
        rw [List.any_eq_false]
        intro l hl
        have aC := hC l hl
        have aQ := hQ l hl
        have aX := hX l hl
        by_cases hemp : (l == "") = true
        · simp [hemp]
        · rw [Bool.not_eq_true] at hemp
          simp only [hemp, Bool.false_eq_true, if_false]
          simp only [hemp, Bool.and_eq_true, Bool.or_eq_true, not_and, ne_eq] at aC aQ aX
          simp only [Bool.or_eq_true, Bool.not_eq_true]
          intro hp
          rcases hp with ((((h1 | h2) | h3) | h4) | h5) | h6 | h7
          · exact absurd (Or.inl (Or.inl h1)) (aQ (by simp [bne, hemp]))
          · exact absurd (Or.inl (Or.inr h2)) (aQ (by simp [bne, hemp]))
          · exact absurd (Or.inl (Or.inl h3)) (aC (by simp [bne, hemp]))
          · exact absurd (Or.inl (Or.inr h4)) (aC (by simp [bne, hemp]))
          · exact absurd h5 (aX (by simp [bne, hemp]))
          · exact absurd (Or.inr h6) (aQ (by simp [bne, hemp]))
          · exact absurd (Or.inr h7) (aC (by simp [bne, hemp]))

/-- C10: whenever `hasValidAIMarker` accepts a multi-line comment,
`determineActionType` on the same input yields one of `"!"`, `"?"`, `":"` —
the fail-loudly `log.Fatalf` branch (modelled by `none`) is unreachable. -/
theorem claim_C10_no_internal_fault (fullComment ext : String)
    (h : hasValidAIMarker fullComment ext = true) :
    determineActionType fullComment ext = some "!" ∨
    determineActionType fullComment ext = some "?" ∨
    determineActionType fullComment ext = some ":" := by
  rcases determineActionType_cases fullComment ext with h1 | h1 | h1 | h1
  · exact .inl h1
  · exact .inr (.inl h1)
  · exact .inr (.inr h1)
  · rw [hasValid_false_of_none _ _ h1] at h
    exact absurd h (by simp)

theorem claim_C10_witness :
    determineActionType "/*\n * AI: this function needs review\n * for performance optimizations\n */" ".go" = some "!" ∨
    determineActionType "/*\n * AI: this function needs review\n * for performance optimizations\n */" ".go" = some "?" ∨
    determineActionType "/*\n * AI: this function needs review\n * for performance optimizations\n */" ".go" = some ":" :=
  claim_C10_no_internal_fault _ _ (by decide)

/-! ### C1 — block-level marker precedence -/

/-- C1 counterexample: the grouped whole-line block
`"// First comment ai?\n// Second comment AI!\n// Third comment Ai?"` in a
`.go` file yields one record spanning lines 1–3 whose `actionType` is
`"?"` (Question), not `"!"` (Command): the single-line extractor classifies
the space-joined combined content, whose suffix is the final `Ai?`. -/
theorem claim_C1_counterexample :
    ((extractSingleLineComments "test.go"
        ["// First comment ai?", "// Second comment AI!", "// Third comment Ai?"] "").map
      (fun c => (c.LineNumber, c.EndLine, c.ActionType)) = [(1, 3, "?")]) ∧
    ((extractSingleLineComments "test.go"
        ["// First comment ai?", "// Second comment AI!", "// Third comment Ai?"] "").map
      (fun c => (c.LineNumber, c.EndLine, c.ActionType)) ≠ [(1, 3, "!")]) := by
  constructor
  · decide
  · decide

/-- C1 (amended): Command-over-Question block precedence holds for the
per-line classifier `determineActionType` used on multi-line comment blocks
(any line carrying a Command marker makes the block Command); grouped
whole-line single-line comments are instead classified on their space-joined
combined content, so the scenario block yields exactly one record spanning
lines 1–3 with `actionType` Question (the trailing `Ai?` decides,
case-insensitively). -/
theorem claim_C1_amended :
    ((extractSingleLineComments "test.go"
        ["// First comment ai?", "// Second comment AI!", "// Third comment Ai?"] "").map
      (fun c => (c.LineNumber, c.EndLine, c.ActionType)) = [(1, 3, "?")]) ∧
    (∀ fullComment ext : String,
      (extractMultilineContentLines fullComment ext).any (fun line =>
        line != "" && (goEndsWith (goLower line) " ai!" || goLower line == "ai!" ||
          goStartsWith (goLower line) "ai!")) = true →
      determineActionType fullComment ext = some "!") := by
  constructor
  · decide
  · intro fullComment ext h
    simp [determineActionType, h]

theorem claim_C1_witness :
    determineActionType "/*\n * is this correct AI?\n * fix it AI!\n */" ".go" = some "!" :=
  claim_C1_amended.2 "/*\n * is this correct AI?\n * fix it AI!\n */" ".go" (by decide)

/-! ### C3 — truncation of over-long comment content -/

set_option maxRecDepth 100000 in
/-- C3 (code bug): a single-line comment whose stripped content exceeds the
1000-character cap and carries a valid trailing marker produces **zero**
records: `extractSingleLineComments` truncates the combined content *before*
classifying it, so the trailing ` AI!` is cut off and the block is
discarded — contradicting the spec and the repository's own
`TestLongCommentsWithAIMarkers` ("Long single-line comment ending with AI!",
which expects one truncated record of type `"!"`). -/
theorem claim_C3_truncation_bug :
    longMarkerContent.data.length > maxCommentLength ∧
    classifyCombined longMarkerContent = some "!" ∧
    extractSingleLineComments "test.go" ["// " ++ longMarkerContent] "" = [] := by
  refine ⟨by decide, by decide, by decide⟩

/-! ### C4 — ordering of the produced records -/

/-- Loop invariant of the single-line extractor: from index `i` on, every
produced record starts at line `i + 1` or later, and records are produced
in strictly increasing start-line order. -/
theorem slLoop_sorted (filePath tok : String) (lines : List String) :
    ∀ fuel i processed,
      (slLoop filePath tok lines fuel i processed).Pairwise
        (fun a b => a.LineNumber < b.LineNumber) ∧
      ∀ c ∈ slLoop filePath tok lines fuel i processed, i + 1 ≤ c.LineNumber := by
  intro fuel
  induction fuel with
  | zero => intro i processed; simp [slLoop]
  | succ fuel ih =>
    intro i processed
    rw [slLoop]
    split
    · exact ⟨(ih (i+1) _).1, fun c hc => le_trans (by omega) ((ih (i+1) _).2 c hc)⟩
    · split
      · exact ⟨(ih (i+1) _).1, fun c hc => le_trans (by omega) ((ih (i+1) _).2 c hc)⟩
      · split
        · -- whole-line comment branch
          dsimp only
          split
          · -- no marker in the combined content: skip
            exact ⟨(ih (i+1) _).1, fun c hc => le_trans (by omega) ((ih (i+1) _).2 c hc)⟩
          · -- record produced at line i + 1
            constructor
            · rw [List.pairwise_cons]
              exact ⟨fun b hb' => lt_of_lt_of_le (Nat.lt_succ_self (i+1)) ((ih (i+1) _).2 b hb'),
                     (ih (i+1) _).1⟩
            · intro c hc
              rcases List.mem_cons.mp hc with rfl | hc'
              · exact le_refl (i+1)
              · exact le_trans (by omega) ((ih (i+1) _).2 c hc')
        · -- inline comment branch
          dsimp only
          split
          · exact ⟨(ih (i+1) _).1, fun c hc => le_trans (by omega) ((ih (i+1) _).2 c hc)⟩
          · constructor
            · rw [List.pairwise_cons]
              exact ⟨fun b hb' => lt_of_lt_of_le (Nat.lt_succ_self (i+1)) ((ih (i+1) _).2 b hb'),
                     (ih (i+1) _).1⟩
            · intro c hc
              rcases List.mem_cons.mp hc with rfl | hc'
              · exact le_refl (i+1)
              · exact le_trans (by omega) ((ih (i+1) _).2 c hc')

/-- Loop invariant of the multi-line extractor: with the scan at index `i`
(and, when inside a block, the block opened at `startLine < i`), every
produced record starts at the block's opening line or later, in strictly
increasing start-line order. -/
theorem mlLoop_sorted (filePath ext : String) (pair : MultilineTokenPair) (allLines : List String) :
    ∀ (rest : List String) (i : Nat) (inComment : Bool) (commentLines : List String) (startLine : Nat),
      (inComment = true → startLine < i) →
      (mlLoop filePath ext pair allLines rest i inComment commentLines startLine).Pairwise
        (fun a b => a.LineNumber < b.LineNumber) ∧
      ∀ c ∈ mlLoop filePath ext pair allLines rest i inComment commentLines startLine,
        (if inComment then startLine + 1 else i + 1) ≤ c.LineNumber := by
  intro rest
  induction rest with
  | nil => intro i inComment commentLines startLine _; simp [mlLoop]
  | cons line rest ih =>
    intro i inComment commentLines startLine hinv
    rw [mlLoop]
    cases inComment with
    | false =>
      split
      · -- opens a block on this line
        dsimp only
        split
        · -- complete same-line block
          split
          · -- valid marker: record at line i + 1
            obtain ⟨hp, hb⟩ := ih (i+1) false [] 0 (by simp)
            rw [List.cons_append, List.nil_append]
            refine ⟨List.pairwise_cons.mpr
              ⟨fun b hb' => lt_of_lt_of_le (Nat.lt_succ_self _)
                (show i + 1 + 1 ≤ b.LineNumber from hb b hb'), hp⟩, ?_⟩
            intro c hc
            rcases List.mem_cons.mp hc with rfl | hc'
            · show i + 1 ≤ i + 1
              omega
            · show i + 1 ≤ c.LineNumber
              exact le_trans (by omega) (show i + 1 + 1 ≤ c.LineNumber from hb c hc')
          · -- no marker: nothing produced here
            obtain ⟨hp, hb⟩ := ih (i+1) false [] 0 (by simp)
            rw [List.nil_append]
            refine ⟨hp, fun c hc => ?_⟩
            show i + 1 ≤ c.LineNumber
            exact le_trans (by omega) (show i + 1 + 1 ≤ c.LineNumber from hb c hc)
        · -- block stays open, startLine := i
          obtain ⟨hp, hb⟩ := ih (i+1) true [line] i (fun _ => Nat.lt_succ_self i)
          refine ⟨hp, fun c hc => ?_⟩
          show i + 1 ≤ c.LineNumber
          exact show i + 1 ≤ c.LineNumber from hb c hc
      · split
        · -- unreachable: `inComment` is false here
          rename_i hfalse
          exact absurd hfalse (by simp)
        · -- no comment activity on this line
          obtain ⟨hp, hb⟩ := ih (i+1) false commentLines startLine (by simp)
          refine ⟨hp, fun c hc => ?_⟩
          show i + 1 ≤ c.LineNumber
          exact le_trans (by omega) (show i + 1 + 1 ≤ c.LineNumber from hb c hc)
    | true =>
      have hsl : startLine < i := hinv rfl
      split
      · -- unreachable: the opening test requires `!inComment`
        rename_i hopen
        simp at hopen
      · split
        · -- inside the block
          dsimp only
          split
          · -- block closes on this line
            split
            · -- valid marker: record starting at startLine + 1
              obtain ⟨hp, hb⟩ := ih (i+1) false [] 0 (by simp)
              rw [List.cons_append, List.nil_append]
              refine ⟨List.pairwise_cons.mpr
                ⟨fun b hb' => lt_of_lt_of_le (show startLine + 1 < i + 1 + 1 by omega)
                  (show i + 1 + 1 ≤ b.LineNumber from hb b hb'), hp⟩, ?_⟩
              intro c hc
              rcases List.mem_cons.mp hc with rfl | hc'
              · show startLine + 1 ≤ startLine + 1
                omega
              · show startLine + 1 ≤ c.LineNumber
                exact le_trans (by omega) (show i + 1 + 1 ≤ c.LineNumber from hb c hc')
            · -- no marker
              obtain ⟨hp, hb⟩ := ih (i+1) false [] 0 (by simp)
              rw [List.nil_append]
              refine ⟨hp, fun c hc => ?_⟩
              show startLine + 1 ≤ c.LineNumber
              exact le_trans (by omega) (show i + 1 + 1 ≤ c.LineNumber from hb c hc)
          · -- block stays open
            obtain ⟨hp, hb⟩ := ih (i+1) true (commentLines ++ [line]) startLine (fun _ => by omega)
            refine ⟨hp, fun c hc => ?_⟩
            show startLine + 1 ≤ c.LineNumber
            exact show startLine + 1 ≤ c.LineNumber from hb c hc
        · -- unreachable: `inComment` is true here
          rename_i hin
          exact absurd rfl hin

/-- C4 counterexample: for the `.go` file content
`"/* hmm AI? */\n// fix AI!"`, `ExtractAIComments` returns the single-line
record (line 2) *before* the multi-line record (line 1): the full list is
not in ascending start-line order. -/
theorem claim_C4_counterexample :
    ((recordsOf (ExtractAIComments "a.go" "/* hmm AI? */\n// fix AI!")).map
      (fun c => c.LineNumber) = [2, 1]) ∧
    ¬ List.Pairwise (· ≤ ·)
      ((recordsOf (ExtractAIComments "a.go" "/* hmm AI? */\n// fix AI!")).map
        (fun c => c.LineNumber)) := by
  have hmap : (recordsOf (ExtractAIComments "a.go" "/* hmm AI? */\n// fix AI!")).map
      (fun c => c.LineNumber) = [2, 1] := by decide
  refine ⟨hmap, ?_⟩
  rw [hmap]
  intro h
  exact absurd ((List.pairwise_cons.mp h).1 1 (by simp)) (by omega)

/-- C4 (amended): each extraction pass on its own produces records in
(strictly) ascending start-line order — the single-line pass over the whole
file, and each multi-line pass for one token pair.  `ExtractAIComments`
returns the single-line pass's records followed by the multi-line passes',
so the combined list is ascending only when no multi-line block precedes a
single-line comment record. -/
theorem claim_C4_amended (filePath : String) (lines : List String) (pat : String)
    (pair : MultilineTokenPair) :
    (extractSingleLineComments filePath lines pat).Pairwise
      (fun a b => a.LineNumber < b.LineNumber) ∧
    (extractMultilineComments filePath lines pair).Pairwise
      (fun a b => a.LineNumber < b.LineNumber) :=
  ⟨(slLoop_sorted filePath (commentPrefixFor filePath) lines lines.length 0 []).1,
   (mlLoop_sorted filePath (filepathExt filePath) pair lines lines 0 false [] 0 (by simp)).1⟩

/-! ### C6 — word-boundary rule -/

/-- Two suffixes of the same list with equal lengths are equal. -/
theorem suffix_eq_of_length {L l1 l2 : List Char} (h1 : l1 <:+ L) (h2 : l2 <:+ L)
    (hlen : l1.length = l2.length) : l1 = l2 := by
  obtain ⟨t1, ht1⟩ := h1
  obtain ⟨t2, ht2⟩ := h2
  exact List.append_inj_right' (ht1.trans ht2.symm) hlen

/-- A content whose last four characters are `c,'a','i',d` with `c ≠ ' '`
cannot end with a space-separated marker `" ai" ++ e`. -/
theorem not_endsWith_spaced_marker {content : String} {q : List Char} {c d e : Char}
    (hshape : (goLower content).data = q ++ [c, 'a', 'i', d]) (hc : c ≠ ' ')
    (suf4 : String) (hsuf : suf4.data = [' ', 'a', 'i', e]) :
    goEndsWith (goLower content) suf4 = false := by
  cases hx : goEndsWith (goLower content) suf4
  · rfl
  · exfalso
    unfold goEndsWith at hx
    rw [List.isSuffixOf_iff_suffix, hsuf] at hx
    have h2 : [c, 'a', 'i', d] <:+ (goLower content).data := ⟨q, hshape.symm⟩
    have heq := suffix_eq_of_length hx h2 (by simp)
    injection heq with hcc _
    exact hc hcc.symm

/-- A content of at least four characters cannot equal a three-character
marker string. -/
theorem not_beq_short_marker {content : String} {q : List Char} {c d : Char}
    (hshape : (goLower content).data = q ++ [c, 'a', 'i', d]) (m : String)
    (hm : m.data.length = 3) : (goLower content == m) = false := by
  cases hx : goLower content == m
  · rfl
  · exfalso
    rw [beq_iff_eq] at hx
    have hdata : (goLower content).data = m.data := by rw [hx]
    rw [hshape] at hdata
    have hlen := congrArg List.length hdata
    simp [hm] at hlen

/-- C6: a single-line comment content ending in a word that merely contains
"ai" followed by `?` or `!` — the "ai" neither at the very start of the
content nor preceded by a space — and carrying no marker at the start of the
content, is classified as having no marker, so extraction yields no record
for that comment. -/
theorem claim_C6_word_boundary (content : String) (q : List Char) (c d : Char)
    (hshape : (goLower content).data = q ++ [c, 'a', 'i', d])
    (hc : c ≠ ' ') (_hd : d = '?' ∨ d = '!')
    (h1 : goStartsWith (goLower content) "ai!" = false)
    (h2 : goStartsWith (goLower content) "ai?" = false)
    (h3 : goStartsWith (goLower content) "ai:" = false) :
    classifyCombined content = none := by
  have e1 : goEndsWith (goLower content) " ai!" = false :=
    not_endsWith_spaced_marker hshape hc " ai!" rfl
  have e2 : goEndsWith (goLower content) " ai?" = false :=
    not_endsWith_spaced_marker hshape hc " ai?" rfl
  have e3 : (goLower content == "ai!") = false :=
    not_beq_short_marker hshape "ai!" rfl
  have e4 : (goLower content == "ai?") = false :=
    not_beq_short_marker hshape "ai?" rfl
  simp [classifyCombined, e1, e2, e3, e4, h1, h2, h3]

theorem claim_C6_witness :
    classifyCombined "Traveling to Dubai?" = none ∧
    extractSingleLineComments "test.go" ["// Traveling to hawaii?"] "" = [] ∧
    extractSingleLineComments "test.go" ["// The brave samurai!"] "" = [] :=
  ⟨claim_C6_word_boundary "Traveling to Dubai?" "traveling to du".data 'b' '?'
      (by decide) (by decide) (.inl rfl) (by decide) (by decide) (by decide),
   by decide, by decide⟩

/-! ### C7 — grouping of consecutive whole-line comments -/

theorem idxList_length (n : Nat) : ∀ s, (idxList s n).length = n := by
  induction n with
  | zero => intro s; rfl
  | succ n ih => intro s; simp [idxList, ih]

theorem idxList_shift (n : Nat) : ∀ s, idxList (s+1) n = (idxList s n).map (· + 1) := by
  induction n with
  | zero => intro s; rfl
  | succ n ih => intro s; simp [idxList, ih]

theorem mem_idxList (n : Nat) : ∀ s k, k ∈ idxList s n ↔ s ≤ k ∧ k < s + n := by
  induction n with
  | zero => intro s k; simp [idxList]
  | succ n ih => intro s k; simp [idxList, ih]; omega

theorem idxList_contains {n s k : Nat} : (idxList s n).contains k = true ↔ s ≤ k ∧ k < s + n := by
  rw [List.contains_iff_exists_mem_beq]
  constructor
  · rintro ⟨m, hm, hbeq⟩
    rw [beq_iff_eq] at hbeq
    subst hbeq
    exact (mem_idxList n s k).mp hm
  · intro h
    exact ⟨k, (mem_idxList n s k).mpr h, by simp⟩

theorem map_getD_cons_idx {α : Type} (x : α) (xs : List α) (d : α) (n : Nat) :
    (idxList 1 n).map (fun k => (x :: xs).getD k d) = (idxList 0 n).map (fun k => xs.getD k d) := by
  rw [show (1 : Nat) = 0 + 1 from rfl, idxList_shift, List.map_map]
  rfl

theorem idxList_map_getD {α : Type} (l : List α) (d : α) :
    (idxList 0 l.length).map (fun k => l.getD k d) = l := by
  induction l with
  | nil => rfl
  | cons x xs ih =>
    show (idxList 0 (xs.length + 1)).map _ = x :: xs
    rw [idxList, List.map_cons, List.getD_cons_zero, map_getD_cons_idx, ih]

theorem zipWith_getD {α β γ : Type} (f : α → β → γ) :
    ∀ (as : List α) (bs : List β) (k : Nat) (da : α) (db : β) (dc : γ),
      k < as.length → k < bs.length →
      (List.zipWith f as bs).getD k dc = f (as.getD k da) (bs.getD k db) := by
  intro as
  induction as with
  | nil => intro bs k da db dc h _; simp at h
  | cons a as ih =>
    intro bs k da db dc hk1 hk2
    cases bs with
    | nil => simp at hk2
    | cons b bs =>
      cases k with
      | zero => rfl
      | succ k =>
        simpa using ih bs k da db dc (by simpa using hk1) (by simpa using hk2)

theorem filterMap_eq_map_of_forall {α β : Type} (g : α → Option β) (f : α → β) :
    ∀ (l : List α), (∀ x ∈ l, g x = some (f x)) → l.filterMap g = l.map f := by
  intro l
  induction l with
  | nil => intro _; rfl
  | cons x xs ih =>
    intro h
    rw [List.filterMap_cons, h x (by simp), List.map_cons,
        ih (fun y hy => h y (by simp [hy]))]

theorem strExt {s t : String} (h : s.data = t.data) : s = t := by
  cases s; cases t; exact congrArg String.mk h

/-- `goFirstSplit` finds `sep` at the very front of `sep ++ r`. -/
theorem goFirstSplit_tok_front {sep r : List Char} (hne : sep ≠ []) :
    goFirstSplit (sep ++ r) sep = some ([], r) := by
  cases sep with
  | nil => exact absurd rfl hne
  | cons t ts =>
    show goFirstSplit (t :: (ts ++ r)) (t :: ts) = some ([], r)
    have hp : (t :: ts).isPrefixOf (t :: (ts ++ r)) = true := by
      rw [List.isPrefixOf_iff_prefix]
      exact ⟨r, rfl⟩
    unfold goFirstSplit
    rw [hp]
    simp only [if_true]
    rw [show (t :: (ts ++ r)).drop (t :: ts).length = r from List.drop_left (t :: ts) r]

/-- Scanning past an all-whitespace pad: the token (whose first character is
not whitespace) cannot match inside the pad. -/
theorem goFirstSplit_pad {l sep : List Char} {t : Char} {ts : List Char}
    (hsep : sep = t :: ts) (ht : isGoSpace t = false) :
    ∀ pad : List Char, (∀ x ∈ pad, isGoSpace x = true) →
      goFirstSplit (pad ++ l) sep = (goFirstSplit l sep).map (fun p => (pad ++ p.1, p.2)) := by
  intro pad
  induction pad with
  | nil =>
    intro _
    cases h : goFirstSplit l sep <;> simp [h]
  | cons x xs ih =>
    intro hpad
    have hx : isGoSpace x = true := hpad x (by simp)
    show goFirstSplit (x :: (xs ++ l)) sep = _
    have hp : sep.isPrefixOf (x :: (xs ++ l)) = false := by
      subst hsep
      cases hq : (t :: ts).isPrefixOf (x :: (xs ++ l))
      · rfl
      · exfalso
        rw [List.isPrefixOf_iff_prefix] at hq
        obtain ⟨u, hu⟩ := hq
        rw [List.cons_append] at hu
        injection hu with h1 _
        rw [h1, hx] at ht
        cases ht
    have hstep : goFirstSplit (x :: (xs ++ l)) sep =
        (goFirstSplit (xs ++ l) sep).map (fun p => (x :: p.1, p.2)) := by
      show (if sep.isPrefixOf (x :: (xs ++ l)) then
              some ([], (x :: (xs ++ l)).drop sep.length)
            else (goFirstSplit (xs ++ l) sep).map (fun p => (x :: p.1, p.2))) = _
      rw [hp]
      simp
    rw [hstep, ih (fun y hy => hpad y (by simp [hy]))]
    cases h : goFirstSplit l sep <;> simp [h]

theorem trimListGo_all_space {l : List Char} (h : ∀ c ∈ l, isGoSpace c = true) :
    trimListGo l = [] := by
  unfold trimListGo
  rw [List.dropWhile_eq_nil_iff.mpr h]
  rfl

theorem trimListGo_space_cons {td : List Char} (h : trimListGo td = td) :
    trimListGo (' ' :: td) = td := by
  show trimListGo (' ' :: td) = td
  unfold trimListGo
  rw [List.dropWhile_cons_of_pos (by decide : isGoSpace ' ' = true)]
  exact h

/-- The comment token is `"#"` or `"//"`. -/
theorem commentPrefixFor_cases (filePath : String) :
    commentPrefixFor filePath = "#" ∨ commentPrefixFor filePath = "//" := by
  unfold commentPrefixFor
  split
  · exact .inl rfl
  · exact .inr rfl

/-- The token starts with a non-whitespace character. -/
theorem commentPrefixFor_shape (filePath : String) :
    ∃ hd tl, (commentPrefixFor filePath).data = hd :: tl ∧ isGoSpace hd = false := by
  rcases commentPrefixFor_cases filePath with h | h <;> rw [h]
  · exact ⟨'#', [], rfl, rfl⟩
  · exact ⟨'/', ['/'], rfl, rfl⟩

/-- Structure of a whole-line comment `pad ++ tok ++ " " ++ t`: it contains
the token, the text before the token trims to empty, and the comment content
after the token trims to `t`. -/
theorem whole_line_facts (tok p t : String)
    (htok : ∃ hd tl, tok.data = hd :: tl ∧ isGoSpace hd = false)
    (hp : ∀ c ∈ p.data, isGoSpace c = true)
    (ht : goTrimSpace t = t) :
    goContains (p ++ tok ++ " " ++ t) tok = true ∧
    goTrimSpace (beforeTok (p ++ tok ++ " " ++ t) tok) = "" ∧
    goTrimSpace (afterTok (p ++ tok ++ " " ++ t) tok) = t := by
  obtain ⟨hd, tl, htokd, hhd⟩ := htok
  have hdata : (p ++ tok ++ " " ++ t).data = p.data ++ (tok.data ++ (' ' :: t.data)) := by
    simp [List.append_assoc]
  have hfs : goFirstSplit ((p ++ tok ++ " " ++ t)).data tok.data =
      some (p.data, ' ' :: t.data) := by
    rw [hdata, goFirstSplit_pad htokd hhd p.data hp,
        goFirstSplit_tok_front (by rw [htokd]; simp)]
    simp
  have htd : trimListGo t.data = t.data := congrArg String.data ht
  refine ⟨?_, ?_, ?_⟩
  · unfold goContains
    rw [hfs]
    rfl
  · unfold beforeTok
    rw [hfs]
    exact strExt (trimListGo_all_space hp)
  · unfold afterTok
    rw [hfs]
    exact strExt (trimListGo_space_cons htd)

/-- When every line in the fuel window is a whole-line comment of the token,
the grouping loop collects exactly those lines (marking them processed) and
ends at the last index of the window. -/
theorem collectGroup_all (tok : String) (lines : List String) :
    ∀ fuel j e,
      (∀ k, j ≤ k → k < j + fuel →
        goContains (lines.getD k "") tok = true ∧
        goTrimSpace (beforeTok (lines.getD k "") tok) = "") →
      collectGroup tok lines fuel j e =
        ((idxList j fuel).map (fun k => lines.getD k ""),
         (if fuel = 0 then e else j + fuel - 1),
         idxList j fuel) := by
  intro fuel
  induction fuel with
  | zero => intro j e _; simp [collectGroup, idxList]
  | succ fuel ih =>
    intro j e h
    obtain ⟨hc, hb⟩ := h j (le_refl j) (by omega)
    rw [collectGroup]
    simp only [hc, if_true, hb, beq_self_eq_true]
    rw [ih (j+1) j (fun k hk1 hk2 => h k (by omega) (by omega))]
    rw [idxList]
    simp only [List.map_cons, Prod.mk.injEq, true_and]
    constructor
    · cases fuel with
      | zero => simp
      | succ m => simp; omega
    · trivial

/-- When every remaining in-range index is already marked processed, the
outer loop produces nothing more. -/
theorem slLoop_all_processed (filePath tok : String) (lines : List String) :
    ∀ fuel i processed,
      (∀ k, i ≤ k → k < lines.length → processed.contains k = true) →
      slLoop filePath tok lines fuel i processed = [] := by
  intro fuel
  induction fuel with
  | zero => intro i processed _; simp [slLoop]
  | succ fuel ih =>
    intro i processed h
    rw [slLoop]
    by_cases hk : i < lines.length
    · rw [h i (le_refl i) hk]
      simp only [if_true]
      exact ih (i+1) processed (fun k hk1 hk2 => h k (by omega) hk2)
    · have hline : lines.getD i "" = "" := List.getD_eq_default _ _ (by omega)
      have hcont : goContains (lines.getD i "") tok = false := by
        rw [hline]; rfl
      cases hp : processed.contains i
      · simp only [hp, Bool.false_eq_true, if_false, hcont, Bool.not_false, if_true]
        exact ih (i+1) processed (fun k hk1 hk2 => h k (by omega) hk2)
      · simp only [hp, if_true]
        exact ih (i+1) processed (fun k hk1 hk2 => h k (by omega) hk2)

/-- Pointwise access from a `Forall₂` relation. -/
theorem forall2_getD {α β : Type} {R : α → β → Prop} :
    ∀ {l1 : List α} {l2 : List β}, List.Forall₂ R l1 l2 →
      ∀ (k : Nat) (d1 : α) (d2 : β), k < l1.length → R (l1.getD k d1) (l2.getD k d2) := by
  intro l1 l2 h
  induction h with
  | nil => intro k _ _ hk; simp at hk
  | cons hr hrest ih =>
    intro k d1 d2 hk
    cases k with
    | zero => exact hr
    | succ k => exact ih k d1 d2 (by simpa using hk)

/-- Each zipped whole-line comment relates to its text. -/
theorem forall2_zip_shape (tok : String)
    (htok : ∃ hd tl, tok.data = hd :: tl ∧ isGoSpace hd = false) :
    ∀ (ps Ts : List String), ps.length = Ts.length →
      (∀ p ∈ ps, ∀ c ∈ p.data, isGoSpace c = true) →
      (∀ t ∈ Ts, goTrimSpace t = t ∧ t ≠ "") →
      List.Forall₂ (fun cl t => goContains cl tok = true ∧
          goTrimSpace (beforeTok cl tok) = "" ∧
          goTrimSpace (afterTok cl tok) = t ∧ t ≠ "")
        (List.zipWith (fun p t => p ++ tok ++ " " ++ t) ps Ts) Ts := by
  intro ps
  induction ps with
  | nil =>
    intro Ts h _ _
    cases Ts with
    | nil => exact .nil
    | cons t Ts => simp at h
  | cons p ps ih =>
    intro Ts h hp ht
    cases Ts with
    | nil => simp at h
    | cons t Ts =>
      have wf := whole_line_facts tok p t htok (hp p (by simp)) ((ht t (by simp)).1)
      exact .cons ⟨wf.1, wf.2.1, wf.2.2, (ht t (by simp)).2⟩
        (ih Ts (by simpa using h) (fun q hq => hp q (by simp [hq]))
          (fun u hu => ht u (by simp [hu])))

/-- The content-collection `filterMap` of the whole-line branch recovers the
texts when every comment line contains the token and trims to its nonempty
text. -/
theorem filterMap_content (tok : String) :
    ∀ {cls Ts : List String},
      List.Forall₂ (fun cl t => goContains cl tok = true ∧
          goTrimSpace (afterTok cl tok) = t ∧ t ≠ "") cls Ts →
      cls.filterMap (fun commentLine =>
        if goContains commentLine tok then
          if goTrimSpace (afterTok commentLine tok) != "" then
            some (goTrimSpace (afterTok commentLine tok))
          else none
        else none) = Ts := by
  intro cls Ts h
  induction h with
  | nil => rfl
  | cons hrel _hrest ih =>
    rename_i cl t cls2 Ts2
    obtain ⟨h1, h2, h3⟩ := hrel
    have hcond : (goTrimSpace (afterTok cl tok) != "") = true := by
      simp [h2, bne_iff_ne, h3]
    rw [List.filterMap_cons, if_pos h1, if_pos hcond]
    dsimp only
    rw [h2, ih]


/-- Consecutive whole-line comments (arbitrary whitespace indentation before
the token, nonempty trimmed texts) form exactly one record spanning lines
`1` to `texts.length`, with the space-joined (truncated) combined content. -/
theorem c7_group_all (filePath : String) (pads texts : List String) (a : String)
    (hlen : pads.length = texts.length)
    (hpads : ∀ p ∈ pads, ∀ c ∈ p.data, isGoSpace c = true)
    (htexts : ∀ t ∈ texts, goTrimSpace t = t ∧ t ≠ "")
    (hne : texts ≠ [])
    (hcls : classifyCombined (truncateComment (goJoin " " texts)) = some a) :
    (extractSingleLineComments filePath
      (List.zipWith (fun p t => p ++ commentPrefixFor filePath ++ " " ++ t) pads texts) "").map
        (fun c => (c.LineNumber, c.EndLine, c.Content, c.ActionType)) =
      [(1, if texts.length = 1 then 0 else texts.length,
        truncateComment (goJoin " " texts), a)] := by
  obtain ⟨hd, tl, htokd, hhd⟩ := commentPrefixFor_shape filePath
  set tok := commentPrefixFor filePath with htokdef
  cases texts with
  | nil => exact absurd rfl hne
  | cons t0 ts =>
  cases pads with
  | nil => simp at hlen
  | cons p0 ps =>
  set lines := List.zipWith (fun p t => p ++ tok ++ " " ++ t) (p0 :: ps) (t0 :: ts) with hlines
  have hlen' : ps.length = ts.length := by simpa using hlen
  have hlinelen : lines.length = ts.length + 1 := by
    rw [hlines, List.length_zipWith]
    simp [hlen']
  have hF2 := forall2_zip_shape tok ⟨hd, tl, htokd, hhd⟩ (p0 :: ps) (t0 :: ts)
    hlen hpads htexts
  rw [← hlines] at hF2
  have hpt := forall2_getD hF2
  have hcg := collectGroup_all tok lines ts.length 1 0
    (fun k hk1 hk2 => ⟨(hpt k "" "" (by omega)).1, (hpt k "" "" (by omega)).2.1⟩)
  have hcl : (lines.getD 0 "") :: (idxList 1 ts.length).map (fun k => lines.getD k "") = lines := by
    have h0 := idxList_map_getD lines ""
    rw [hlinelen, idxList, List.map_cons] at h0
    exact h0
  have hcontent : (((lines.getD 0 "") :: (idxList 1 ts.length).map (fun k => lines.getD k "")).filterMap
      (fun commentLine =>
        if goContains commentLine tok then
          if goTrimSpace (afterTok commentLine tok) != "" then
            some (goTrimSpace (afterTok commentLine tok))
          else none
        else none)) = t0 :: ts := by
    rw [hcl]
    exact filterMap_content tok (hF2.imp (fun _ _ h => ⟨h.1, h.2.2.1, h.2.2.2⟩))
  obtain ⟨hc0, hb0, -, -⟩ := hpt 0 "" "" (by omega)
  have hproc : ∀ k, 1 ≤ k → k < lines.length →
      (([] : List Nat) ++ idxList 1 ts.length).contains k = true := by
    intro k hk1 hk2
    rw [List.nil_append]
    exact idxList_contains.mpr ⟨hk1, by rw [hlinelen] at hk2; omega⟩
  show (slLoop filePath tok lines lines.length 0 []).map
      (fun c => (c.LineNumber, c.EndLine, c.Content, c.ActionType)) = _
  rw [hlinelen, slLoop]
  dsimp only
  rw [if_neg (by decide : ¬((([] : List Nat).contains 0) = true))]
  rw [if_neg (by rw [hc0]; decide : ¬((!goContains (lines.getD 0 "") tok) = true))]
  rw [if_pos (by rw [hb0]; rfl : (goTrimSpace (beforeTok (lines.getD 0 "") tok) == "") = true)]
  rw [hlinelen]
  rw [show ts.length + 1 - (0 + 1) = ts.length from by omega]
  rw [show (0 : Nat) + 1 = 1 from rfl]
  rw [hcg]
  dsimp only
  rw [hcontent]
  rw [hcls]
  dsimp only
  rw [slLoop_all_processed filePath tok lines ts.length 1 _ hproc]
  simp only [List.map_cons, List.map_nil]
  rw [hcl, hlinelen]
  cases ts with
  | nil => simp
  | cons u us => simp

set_option maxHeartbeats 1000000 in
theorem c7_gap_split (filePath : String) (p1 p2 t1 t2 a1 a2 : String)
    (hp1 : ∀ c ∈ p1.data, isGoSpace c = true) (hp2 : ∀ c ∈ p2.data, isGoSpace c = true)
    (ht1 : goTrimSpace t1 = t1) (ht1n : t1 ≠ "")
    (ht2 : goTrimSpace t2 = t2) (ht2n : t2 ≠ "")
    (hcls1 : classifyCombined (truncateComment t1) = some a1)
    (hcls2 : classifyCombined (truncateComment t2) = some a2) :
    (extractSingleLineComments filePath
      [p1 ++ commentPrefixFor filePath ++ " " ++ t1, "",
       p2 ++ commentPrefixFor filePath ++ " " ++ t2] "").map
        (fun c => (c.LineNumber, c.EndLine, c.Content, c.ActionType)) =
      [(1, 0, truncateComment t1, a1), (3, 0, truncateComment t2, a2)] := by
  obtain ⟨hd, tl, htokd, hhd⟩ := commentPrefixFor_shape filePath
  set tok := commentPrefixFor filePath with htokdef
  obtain ⟨hc1, hb1, ha1⟩ := whole_line_facts tok p1 t1 ⟨hd, tl, htokd, hhd⟩ hp1 ht1
  obtain ⟨hc2, hb2, ha2⟩ := whole_line_facts tok p2 t2 ⟨hd, tl, htokd, hhd⟩ hp2 ht2
  have hvoid : goContains "" tok = false := rfl
  set L1 := p1 ++ tok ++ " " ++ t1 with hL1
  set L2 := p2 ++ tok ++ " " ++ t2 with hL2
  have hcg1 : collectGroup tok [L1, "", L2] 2 1 0 = ([], 0, []) := by
    rw [collectGroup]
    dsimp only [List.getD_cons_succ, List.getD_cons_zero]
    rw [if_neg (by rw [hvoid]; decide : ¬(goContains "" tok = true))]
  have hcg2 : collectGroup tok [L1, "", L2] 0 3 2 = ([], 2, []) := rfl
  have hfm1 : List.filterMap (fun commentLine =>
      if goContains commentLine tok then
        if goTrimSpace (afterTok commentLine tok) != "" then
          some (goTrimSpace (afterTok commentLine tok))
        else none
      else none) [L1] = [t1] := by
    rw [List.filterMap_cons, if_pos hc1,
        if_pos (by rw [ha1, bne_iff_ne]; exact ht1n :
          (goTrimSpace (afterTok L1 tok) != "") = true)]
    dsimp only
    rw [ha1, List.filterMap_nil]
  have hfm2 : List.filterMap (fun commentLine =>
      if goContains commentLine tok then
        if goTrimSpace (afterTok commentLine tok) != "" then
          some (goTrimSpace (afterTok commentLine tok))
        else none
      else none) [L2] = [t2] := by
    rw [List.filterMap_cons, if_pos hc2,
        if_pos (by rw [ha2, bne_iff_ne]; exact ht2n :
          (goTrimSpace (afterTok L2 tok) != "") = true)]
    dsimp only
    rw [ha2, List.filterMap_nil]
  have hrest : (slLoop filePath tok [L1, "", L2] 2 1 []).map
      (fun c => (c.LineNumber, c.EndLine, c.Content, c.ActionType)) =
      [(3, 0, truncateComment t2, a2)] := by
    rw [slLoop]
    dsimp only [List.getD_cons_zero, List.getD_cons_succ]
    rw [if_neg (by decide : ¬((([] : List Nat).contains 1) = true))]
    rw [if_pos (by rw [hvoid]; rfl : ((!goContains "" tok) = true))]
    rw [slLoop]
    dsimp only [List.getD_cons_zero, List.getD_cons_succ]
    rw [if_neg (by decide : ¬((([] : List Nat).contains (1+1)) = true))]
    rw [if_neg (by rw [hc2]; decide : ¬((!goContains L2 tok) = true))]
    rw [if_pos (by rw [hb2]; rfl : (goTrimSpace (beforeTok L2 tok) == "") = true)]
    rw [show ([L1, "", L2] : List String).length - (1 + 1 + 1) = 0 from rfl]
    rw [show collectGroup tok [L1, "", L2] 0 (1+1+1) (1+1) = ([], 1+1, []) from rfl]
    dsimp only
    rw [hfm2]
    rw [show goJoin " " [t2] = t2 from rfl, hcls2]
    rfl
  show (slLoop filePath tok [L1, "", L2] 3 0 []).map
      (fun c => (c.LineNumber, c.EndLine, c.Content, c.ActionType)) = _
  rw [slLoop]
  dsimp only [List.getD_cons_zero, List.getD_cons_succ]
  rw [if_neg (by decide : ¬((([] : List Nat).contains 0) = true))]
  rw [if_neg (by rw [hc1]; decide : ¬((!goContains L1 tok) = true))]
  rw [if_pos (by rw [hb1]; rfl : (goTrimSpace (beforeTok L1 tok) == "") = true)]
  rw [show ([L1, "", L2] : List String).length - (0 + 1) = 2 from rfl,
      show (0 : Nat) + 1 = 1 from rfl, hcg1]
  dsimp only
  rw [hfm1]
  rw [show goJoin " " [t1] = t1 from rfl, hcls1]
  rw [List.map_cons, List.nil_append, hrest]
  rfl

/-- C7: consecutive whole-line comments of the file's single-line token
(arbitrary whitespace before the token, nonempty trimmed comment texts) are
grouped into exactly one record spanning their first to last physical lines
with their contents space-joined; inserting one blank (non-comment) line
between two marker-carrying whole-line comments instead yields two separate
single-line records, each with the `EndLine = 0` sentinel. -/
theorem claim_C7_grouping :
    (∀ (filePath : String) (pads texts : List String) (a : String),
      pads.length = texts.length →
      (∀ p ∈ pads, ∀ c ∈ p.data, isGoSpace c = true) →
      (∀ t ∈ texts, goTrimSpace t = t ∧ t ≠ "") →
      texts ≠ [] →
      classifyCombined (truncateComment (goJoin " " texts)) = some a →
      (extractSingleLineComments filePath
        (List.zipWith (fun p t => p ++ commentPrefixFor filePath ++ " " ++ t) pads texts) "").map
          (fun c => (c.LineNumber, c.EndLine, c.Content, c.ActionType)) =
        [(1, if texts.length = 1 then 0 else texts.length,
          truncateComment (goJoin " " texts), a)]) ∧
    (∀ (filePath p1 p2 t1 t2 a1 a2 : String),
      (∀ c ∈ p1.data, isGoSpace c = true) → (∀ c ∈ p2.data, isGoSpace c = true) →
      goTrimSpace t1 = t1 → t1 ≠ "" → goTrimSpace t2 = t2 → t2 ≠ "" →
      classifyCombined (truncateComment t1) = some a1 →
      classifyCombined (truncateComment t2) = some a2 →
      (extractSingleLineComments filePath
        [p1 ++ commentPrefixFor filePath ++ " " ++ t1, "",
         p2 ++ commentPrefixFor filePath ++ " " ++ t2] "").map
          (fun c => (c.LineNumber, c.EndLine, c.Content, c.ActionType)) =
        [(1, 0, truncateComment t1, a1), (3, 0, truncateComment t2, a2)]) :=
  ⟨c7_group_all,
   fun fp p1 p2 t1 t2 a1 a2 h1 h2 h3 h4 h5 h6 h7 h8 =>
     c7_gap_split fp p1 p2 t1 t2 a1 a2 h1 h2 h3 h4 h5 h6 h7 h8⟩

theorem claim_C7_witness :
    (extractSingleLineComments "test.go"
      ["// Fix this function", "// it has performance issues", "// please optimize AI!"] "").map
        (fun c => (c.LineNumber, c.EndLine, c.Content, c.ActionType)) =
      [(1, 3, "Fix this function it has performance issues please optimize AI!", "!")] ∧
    (extractSingleLineComments "test.go"
      ["// First comment AI?", "", "// Second comment after gap AI!"] "").map
        (fun c => (c.LineNumber, c.EndLine, c.Content, c.ActionType)) =
      [(1, 0, "First comment AI?", "?"), (3, 0, "Second comment after gap AI!", "!")] := by
  constructor
  · exact claim_C7_grouping.1 "test.go" ["", "", ""]
      ["Fix this function", "it has performance issues", "please optimize AI!"] "!"
      rfl (by decide) (by decide) (by decide) (by decide)
  · exact claim_C7_grouping.2 "test.go" "" "" "First comment AI?"
      "Second comment after gap AI!" "?" "!"
      (by decide) (by decide) (by decide) (by decide) (by decide) (by decide)
      (by decide) (by decide)
